import Mathlib

/-!
Shallow embedding of the storage core of go-cpe-dictionary (db package,
`db/db.go` and `db/rdb.go`) and proofs about it.

Conventions of the embedding:
* Go errors are modelled by the inductive `GoErr`; `gorm.ErrRecordNotFound`
  is the constructor `GoErr.recordNotFound`, `xerrors.Errorf("msg: %w", e)`
  is `GoErr.wrapped "msg" e`, and `errors.Is(err, gorm.ErrRecordNotFound)`
  is `GoErr.isRecordNotFound` (it looks through wrapping).
* The relational backend is modelled by explicit state passing: the table of
  `CategorizedCpe` rows is a `List CategorizedCpe`; statements a transaction
  issues are recorded in a trace of `TxEvent`s.
* Backend faults (a statement failing) are injected through a `TxFaults`
  oracle so that error-handling paths can be analysed for every possible
  failure point.
* Build constants (`config.Revision`, `models.LatestSchemaVersion`) are
  passed as explicit parameters, so theorems quantify over them.
-/

/-- Go error values as the db package distinguishes them: a plain error,
gorm's record-not-found sentinel, or an error wrapped with a message
(`xerrors.Errorf("...: %w", err)`). -/
inductive GoErr where
  | base : String → GoErr
  | recordNotFound : GoErr
  | wrapped : String → GoErr → GoErr
deriving DecidableEq, Repr

/-- `errors.Is(err, gorm.ErrRecordNotFound)`: true iff the not-found sentinel
is somewhere in the wrap chain. -/
def GoErr.isRecordNotFound : GoErr → Bool
  | .recordNotFound => true
  | .wrapped _ e => e.isRecordNotFound
  | .base _ => false

/-- IndexChunk has a starting point and an ending point for Chunk
(db/db.go). The Go struct fields are `From, To int`. -/
structure IndexChunk where
  From : Nat
  To : Nat
deriving DecidableEq, Repr

/-- Loop body of `chunkSlice` (db/db.go): starting at index `i`, emit
`{i, min (i+chunkSize) length}` and advance by `chunkSize` while `i < length`.
The Go loop is `for i := 0; i < length; i += chunkSize`; it terminates for
every `chunkSize ≥ 1` after at most `length` iterations, so the structural
`fuel` argument (instantiated with `length + 1` below) never runs out on the
reachable executions. -/
def chunkSliceAux (length chunkSize : Nat) : Nat → Nat → List IndexChunk
  | _, 0 => []
  | i, fuel + 1 =>
    if i < length then
      { From := i
        To := if length < i + chunkSize then length else i + chunkSize } ::
        chunkSliceAux length chunkSize (i + chunkSize) fuel
    else []

/-- `chunkSlice(length, chunkSize)` (db/db.go): the finite sequence of index
chunks the Go channel yields, in order. -/
def chunkSlice (length chunkSize : Nat) : List IndexChunk :=
  chunkSliceAux length chunkSize 0 (length + 1)

theorem chunkSliceAux_bind_range (L S : Nat) (hS : 0 < S) (fuel : Nat) :
    ∀ i, L ≤ i + fuel * S →
      ((chunkSliceAux L S i fuel).flatMap fun c => List.range' c.From (c.To - c.From)) =
        List.range' i (L - i) := by
  induction fuel with
  | zero =>
    intro i h
    have hiL : L ≤ i := by simpa using h
    have h0 : L - i = 0 := by omega
    simp [chunkSliceAux, h0]
  | succ n ih =>
    intro i h
    by_cases hi : i < L
    · rw [chunkSliceAux]
      simp only [hi, if_true, List.flatMap_cons]
      have hrest : ((chunkSliceAux L S (i + S) n).flatMap
          fun c => List.range' c.From (c.To - c.From)) = List.range' (i + S) (L - (i + S)) := by
        apply ih
        have : i + (n + 1) * S = i + S + n * S := by ring
        omega
      rw [hrest]
      by_cases hL : L < i + S
      · have h1 : L - (i + S) = 0 := by omega
        simp [hL, h1]
      · have happ := List.range'_append i S (L - (i + S)) 1
        simp only [Nat.one_mul, List.range'_one] at happ
        have h2 : L - (i + S) + S = L - i := by omega
        have h3 : (if L < i + S then L else i + S) = i + S := by simp [hL]
        simp only [h3]
        have h4 : i + S - i = S := by omega
        rw [h4, ← h2]
        simpa [Nat.add_comm] using happ
    · rw [chunkSliceAux]
      have h0 : L - i = 0 := by omega
      simp [hi, h0]

theorem chunkSliceAux_mem (L S : Nat) (hS : 0 < S) (fuel : Nat) :
    ∀ i c, c ∈ chunkSliceAux L S i fuel →
      c.From < c.To ∧ c.To ≤ L ∧ c.To - c.From ≤ S ∧ (c.To - c.From = S ∨ c.To = L) := by
  induction fuel with
  | zero => intro i c hc; simp [chunkSliceAux] at hc
  | succ n ih =>
    intro i c hc
    rw [chunkSliceAux] at hc
    by_cases hi : i < L
    · simp only [hi, if_true, List.mem_cons] at hc
      rcases hc with rfl | hc
      · by_cases hL : L < i + S <;> simp [hL] <;> omega
      · exact ih _ _ hc
    · simp [hi] at hc

theorem chunkSlice_bind_range (L S : Nat) (hS : 0 < S) :
    ((chunkSlice L S).flatMap fun c => List.range' c.From (c.To - c.From)) = List.range L := by
  rw [chunkSlice, List.range_eq_range']
  have hmul : (L + 1) * 1 ≤ (L + 1) * S := Nat.mul_le_mul_left _ hS
  have hfuel : L ≤ 0 + (L + 1) * S := by omega
  simpa using chunkSliceAux_bind_range L S hS (L + 1) 0 hfuel

theorem chunkSliceAux_bind_slice {α : Type} (xs : List α) (S : Nat) (fuel : Nat) :
    ∀ i, xs.length ≤ i + fuel * S →
      ((chunkSliceAux xs.length S i fuel).flatMap fun c => (xs.drop c.From).take (c.To - c.From)) =
        xs.drop i := by
  induction fuel with
  | zero =>
    intro i h
    have h0 : xs.length ≤ i := by simpa using h
    simp [chunkSliceAux, List.drop_eq_nil_of_le h0]
  | succ n ih =>
    intro i h
    by_cases hi : i < xs.length
    · rw [chunkSliceAux]
      simp only [hi, if_true, List.flatMap_cons]
      have hrest : ((chunkSliceAux xs.length S (i + S) n).flatMap
          fun c => (xs.drop c.From).take (c.To - c.From)) = xs.drop (i + S) := by
        apply ih
        have : i + (n + 1) * S = i + S + n * S := by ring
        omega
      rw [hrest]
      by_cases hL : xs.length < i + S
      · have hd : xs.drop (i + S) = [] := List.drop_eq_nil_of_le (by omega)
        have ht : (xs.drop i).take (xs.length - i) = xs.drop i := by
          apply List.take_of_length_le
          simp
        simp [hL, hd, ht]
      · have h3 : (if xs.length < i + S then xs.length else i + S) = i + S := by simp [hL]
        have h4 : i + S - i = S := by omega
        rw [h3, h4, ← List.drop_drop, List.take_append_drop]
    · rw [chunkSliceAux]
      simp [hi, List.drop_eq_nil_of_le (by omega : xs.length ≤ i)]

theorem chunkSlice_bind_slice {α : Type} (xs : List α) (S : Nat) (hS : 0 < S) :
    ((chunkSlice xs.length S).flatMap fun c => (xs.drop c.From).take (c.To - c.From)) = xs := by
  rw [chunkSlice]
  have hmul : (xs.length + 1) * 1 ≤ (xs.length + 1) * S := Nat.mul_le_mul_left _ hS
  have hfuel : xs.length ≤ 0 + (xs.length + 1) * S := by omega
  simpa using chunkSliceAux_bind_slice xs S (xs.length + 1) 0 hfuel

/-- C2: for all `N ≥ 0` and `S ≥ 1`, the chunks produced by
`chunkSlice N S` are half-open ranges `[From, To)` whose concatenation is
exactly `[0, N)` in increasing order (hence no gaps and no overlaps), each
chunk is nonempty, of size at most `S`, with upper bound at most `N`; and
`N = 0` yields no chunks. -/
theorem chunkSlice_coverage (N S : Nat) (hS : 1 ≤ S) :
    ((chunkSlice N S).flatMap fun c => List.range' c.From (c.To - c.From)) = List.range N
    ∧ (∀ c ∈ chunkSlice N S, c.From < c.To ∧ c.To ≤ N ∧ c.To - c.From ≤ S)
    ∧ (N = 0 → chunkSlice N S = []) := by
  refine ⟨chunkSlice_bind_range N S hS, ?_, ?_⟩
  · intro c hc
    have := chunkSliceAux_mem N S hS (N + 1) 0 c hc
    exact ⟨this.1, this.2.1, this.2.2.1⟩
  · intro hN
    subst hN
    rfl

/-- Witness for C2 at `N = 5`, `S = 2`. -/
theorem chunkSlice_coverage_witness :
    ((chunkSlice 5 2).flatMap fun c => List.range' c.From (c.To - c.From)) = List.range 5
    ∧ (∀ c ∈ chunkSlice 5 2, c.From < c.To ∧ c.To ≤ 5 ∧ c.To - c.From ≤ 2)
    ∧ (5 = 0 → chunkSlice 5 2 = []) :=
  chunkSlice_coverage 5 2 (by decide)

/-- A `models.CategorizedCpe` row as the db layer uses it. The `models`
package is not under src/; the field set is modelled from the spec (§3
Entry: vendor, product, cpeURI, deprecated, fetchType) plus the `id`
primary key that `deleteAndInsertCpes` selects and deletes by. -/
structure CategorizedCpe where
  id : Nat
  vendor : String
  product : String
  cpeURI : String
  deprecated : Bool
  fetchType : String
deriving DecidableEq, Repr

/-- A `models.FetchMeta` record. Modelled from the spec (§3 FetchMeta:
revision, schemaVersion, lastFetchedAt); rdb.go reads and stamps the
`GoCPEDictRevision` and `SchemaVersion` fields. -/
structure FetchMeta where
  goCPEDictRevision : String
  schemaVersion : Nat
  lastFetchedAt : Nat
deriving DecidableEq, Repr

/-- `GetFetchMeta` (rdb.go): `r.conn.Take(&fetchMeta)` is modelled by its
outcome `takeResult`; `rev` and `latest` stand for the build constants
`config.Revision` and `models.LatestSchemaVersion`. -/
def GetFetchMeta (rev : String) (latest : Nat) (takeResult : Except GoErr FetchMeta) :
    Except GoErr FetchMeta :=
  match takeResult with
  | .error e =>
    if !e.isRecordNotFound then .error e
    else .ok { goCPEDictRevision := rev, schemaVersion := latest, lastFetchedAt := 0 }
  | .ok m => .ok m

/-- `UpsertFetchMeta` (rdb.go): the value handed to `r.conn.Save` after the
two stamping assignments. -/
def UpsertFetchMeta (rev : String) (latest : Nat) (fetchMeta : FetchMeta) : FetchMeta :=
  { fetchMeta with goCPEDictRevision := rev, schemaVersion := latest }

/-- C5: `UpsertFetchMeta` overwrites the caller-supplied revision and
schemaVersion with the build constants before persisting, and leaves the
rest of the record (the timestamp) as supplied. -/
theorem upsertFetchMeta_stamps (rev : String) (latest : Nat) (m : FetchMeta) :
    UpsertFetchMeta rev latest m =
      { goCPEDictRevision := rev, schemaVersion := latest,
        lastFetchedAt := m.lastFetchedAt } := rfl

/-- C8: `GetFetchMeta` turns a record-not-found condition into a fresh
`FetchMeta` stamped with the build constants and no error; any other backend
error is returned; a stored record is returned as-is. -/
theorem getFetchMeta_notFound (rev : String) (latest : Nat) :
    (∀ e : GoErr, e.isRecordNotFound = true →
      GetFetchMeta rev latest (.error e) =
        .ok { goCPEDictRevision := rev, schemaVersion := latest, lastFetchedAt := 0 })
    ∧ (∀ e : GoErr, e.isRecordNotFound = false →
        GetFetchMeta rev latest (.error e) = .error e)
    ∧ (∀ m, GetFetchMeta rev latest (.ok m) = .ok m) := by
  refine ⟨?_, ?_, fun m => rfl⟩ <;> intro e he <;> simp [GetFetchMeta, he]

/-- Witness for C8 at concrete inputs. -/
theorem getFetchMeta_notFound_witness :
    GetFetchMeta "deadbeef" 2 (.error .recordNotFound) =
      .ok { goCPEDictRevision := "deadbeef", schemaVersion := 2, lastFetchedAt := 0 }
    ∧ GetFetchMeta "deadbeef" 2 (.error (.base "io")) = .error (.base "io") :=
  ⟨(getFetchMeta_notFound "deadbeef" 2).1 .recordNotFound rfl,
   (getFetchMeta_notFound "deadbeef" 2).2.1 (.base "io") rfl⟩

/-- SQL LIKE pattern matching over characters. Modelled from the spec: the
match is executed by the SQL backend (not part of this repository); per the
spec, `%` matches any sequence of characters, `_` matches exactly one
character, every other character matches itself. -/
def likeMatchChars : List Char → List Char → Bool
  | [], [] => true
  | [], _ :: _ => false
  | '%' :: ps, s =>
    likeMatchChars ps s ||
      (match s with
       | [] => false
       | _ :: s2 => likeMatchChars ('%' :: ps) s2)
  | '_' :: _, [] => false
  | '_' :: ps, _ :: s2 => likeMatchChars ps s2
  | _ :: _, [] => false
  | c :: ps, d :: s2 => c == d && likeMatchChars ps s2
termination_by p s => p.length + s.length

/-- `pat LIKE` applied to a string. -/
def likeMatch (pat s : String) : Bool := likeMatchChars pat.toList s.toList

/-- Backend result of
`r.conn.Distinct("cpe_uri", "deprecated").Find(&results, "vendor LIKE ? and
product LIKE ?", vendor, product)`: the distinct (cpeURI, deprecated) pairs
of the rows matching both LIKE patterns. -/
def queryCpesDistinct (db : List CategorizedCpe) (vendor product : String) :
    List (String × Bool) :=
  ((db.filter fun r => likeMatch vendor r.vendor && likeMatch product r.product).map
    fun r => (r.cpeURI, r.deprecated)).dedup

/-- The partition loop of `GetCpesByVendorProduct`: deprecated rows go to the
second list, the rest to the first, in query order. -/
def partitionCpes : List (String × Bool) → List String × List String
  | [] => ([], [])
  | (u, d) :: rest =>
    let p := partitionCpes rest
    if d then (p.1, u :: p.2) else (u :: p.1, p.2)

/-- `GetCpesByVendorProduct` (rdb.go). `qerr` is the error of the backend
query (`none` on success); on a query error gorm leaves `results` empty.
Note the Go error check is
`err != nil && errors.Is(err, gorm.ErrRecordNotFound)`: only a not-found
error returns early; any other error falls through to the partition loop
over the (then empty) results and is dropped. -/
def GetCpesByVendorProduct (db : List CategorizedCpe) (vendor product : String)
    (qerr : Option GoErr) : Except GoErr (List String × List String) :=
  let results : List (String × Bool) :=
    match qerr with
    | some _ => []
    | none => queryCpesDistinct db vendor product
  match qerr with
  | some e =>
    if e.isRecordNotFound then .error (.wrapped "Failed to select results" e)
    else .ok (partitionCpes results)
  | none => .ok (partitionCpes results)

/-- `GetVendorProducts` (rdb.go): the distinct (vendor, product) pairs are
fetched, then formatted "vendor::product". The Go function has named
returns `(vendorProducts []string, err error)` and ends in a naked
`return`: when a non-not-found query error falls through the (inverted)
not-found check, the loop runs over the (then empty) results and the still
set named `err` is returned alongside the list. The result is the pair of
named returns. `q` is the backend query outcome; gorm leaves `results`
empty on error. -/
def GetVendorProducts (q : Except GoErr (List (String × String))) :
    List String × Option GoErr :=
  let results : List (String × String) := match q with | .ok rows => rows | .error _ => []
  let err : Option GoErr := match q with | .ok _ => none | .error e => some e
  match err with
  | some e =>
    if e.isRecordNotFound then ([], some (.wrapped "Failed to select results" e))
    else (results.map fun vp => vp.1 ++ "::" ++ vp.2, some e)
  | none => (results.map fun vp => vp.1 ++ "::" ++ vp.2, none)

/-- C3 counter-evidence: the not-found check in both lookups is
`err != nil && errors.Is(err, gorm.ErrRecordNotFound)` — the negation of
the intended normalization. A record-not-found condition is surfaced as an
error by both lookups instead of becoming an empty result; and
`GetCpesByVendorProduct`, whose final statement returns an explicit nil
error, additionally swallows every non-not-found backend error.
`GetVendorProducts` still surfaces such an error only through its named
return and naked `return`. -/
theorem lookup_error_normalization_inverted :
    GetVendorProducts (.error .recordNotFound) =
        ([], some (.wrapped "Failed to select results" .recordNotFound))
    ∧ GetVendorProducts (.error (.base "disk I/O error")) =
        ([], some (.base "disk I/O error"))
    ∧ GetCpesByVendorProduct [] "v" "p" (some .recordNotFound) =
        .error (.wrapped "Failed to select results" .recordNotFound)
    ∧ GetCpesByVendorProduct [] "v" "p" (some (.base "disk I/O error")) = .ok ([], []) :=
  ⟨rfl, rfl, rfl, rfl⟩

theorem partitionCpes_eq (l : List (String × Bool)) :
    partitionCpes l =
      ((l.filter fun x => !x.2).map Prod.fst, (l.filter fun x => x.2).map Prod.fst) := by
  induction l with
  | nil => rfl
  | cons hd tl ih =>
    obtain ⟨u, d⟩ := hd
    cases d <;> simp [partitionCpes, ih, List.filter_cons]

theorem queryCpesDistinct_mem (db : List CategorizedCpe) (v p : String)
    (u : String) (d : Bool) :
    (u, d) ∈ queryCpesDistinct db v p ↔
      ∃ r ∈ db, likeMatch v r.vendor = true ∧ likeMatch p r.product = true ∧
        r.cpeURI = u ∧ r.deprecated = d := by
  simp only [queryCpesDistinct, List.mem_dedup, List.mem_map, List.mem_filter,
    Bool.and_eq_true, Prod.mk.injEq]
  constructor
  · rintro ⟨r, ⟨hr, hv, hp⟩, hu, hd⟩
    exact ⟨r, hr, hv, hp, hu, hd⟩
  · rintro ⟨r, hr, hv, hp, hu, hd⟩
    exact ⟨r, ⟨hr, hv, hp⟩, hu, hd⟩

/-- C7: on a successful query, `GetCpesByVendorProduct` returns the distinct
cpeURIs of the stored entries whose vendor and product match the given
SQL-LIKE patterns, partitioned by the deprecated flag: non-deprecated
entries in the first list, deprecated entries in the second, each list
without duplicates. -/
theorem getCpesByVendorProduct_partition (db : List CategorizedCpe) (v p : String) :
    ∃ act dep, GetCpesByVendorProduct db v p none = .ok (act, dep)
    ∧ (∀ u, u ∈ act ↔ ∃ r ∈ db, likeMatch v r.vendor = true ∧
        likeMatch p r.product = true ∧ r.deprecated = false ∧ r.cpeURI = u)
    ∧ (∀ u, u ∈ dep ↔ ∃ r ∈ db, likeMatch v r.vendor = true ∧
        likeMatch p r.product = true ∧ r.deprecated = true ∧ r.cpeURI = u)
    ∧ act.Nodup ∧ dep.Nodup := by
  refine ⟨_, _, rfl, ?_, ?_, ?_, ?_⟩
  · intro u
    rw [partitionCpes_eq]
    simp only [List.mem_map, List.mem_filter, Bool.not_eq_eq_eq_not, Bool.not_true]
    constructor
    · rintro ⟨⟨u', d⟩, ⟨hmem, hd⟩, rfl⟩
      simp only at hd
      subst hd
      rcases (queryCpesDistinct_mem db v p u' false).1 hmem with ⟨r, hr, hv, hp, hu, hdep⟩
      exact ⟨r, hr, hv, hp, hdep, hu⟩
    · rintro ⟨r, hr, hv, hp, hdep, rfl⟩
      exact ⟨(r.cpeURI, false),
        ⟨(queryCpesDistinct_mem db v p r.cpeURI false).2 ⟨r, hr, hv, hp, rfl, hdep⟩, rfl⟩, rfl⟩
  · intro u
    rw [partitionCpes_eq]
    simp only [List.mem_map, List.mem_filter]
    constructor
    · rintro ⟨⟨u', d⟩, ⟨hmem, hd⟩, rfl⟩
      simp only at hd
      subst hd
      rcases (queryCpesDistinct_mem db v p u' true).1 hmem with ⟨r, hr, hv, hp, hu, hdep⟩
      exact ⟨r, hr, hv, hp, hdep, hu⟩
    · rintro ⟨r, hr, hv, hp, hdep, rfl⟩
      exact ⟨(r.cpeURI, true),
        ⟨(queryCpesDistinct_mem db v p r.cpeURI true).2 ⟨r, hr, hv, hp, rfl, hdep⟩, rfl⟩, rfl⟩
  · rw [partitionCpes_eq]
    apply List.Nodup.map_on
    · intro x hx y hy hxy
      have hx2 : x.2 = false := by
        have := (List.mem_filter.1 hx).2
        simpa using this
      have hy2 : y.2 = false := by
        have := (List.mem_filter.1 hy).2
        simpa using this
      exact Prod.ext hxy (hx2.trans hy2.symm)
    · exact List.Nodup.filter _ (List.nodup_dedup _)
  · rw [partitionCpes_eq]
    apply List.Nodup.map_on
    · intro x hx y hy hxy
      have hx2 : x.2 = true := (List.mem_filter.1 hx).2
      have hy2 : y.2 = true := (List.mem_filter.1 hy).2
      exact Prod.ext hxy (hx2.trans hy2.symm)
    · exact List.Nodup.filter _ (List.nodup_dedup _)

/-- The catalog facts `IsGoCPEDictModelV1` (rdb.go) inspects: whether the
FetchMeta table exists (`Migrator().HasTable(&models.FetchMeta{})`), and the
outcome of the dialect-specific table-count query (`sqlite_master` /
`information_schema.tables` / `pg_tables`): the number of tables counted and
the query's error, if any. -/
structure SchemaState where
  hasFetchMetaTable : Bool
  tableCount : Nat
  countErr : Option GoErr

/-- `IsGoCPEDictModelV1` (rdb.go): `(isV1, err)`. If the FetchMeta table
exists the store is not model v1. Otherwise the tables are counted; a
positive count means a legacy (model v1) store; on a zero count the count
query's error (if any) is returned. -/
def IsGoCPEDictModelV1 (s : SchemaState) : Bool × Option GoErr :=
  if s.hasFetchMetaTable then (false, none)
  else if 0 < s.tableCount then (true, none)
  else (false, s.countErr)

/-- The behavior of one concrete driver for an open sequence: the outcome of
`OpenDB` (error and locked flag), the catalog state `IsGoCPEDictModelV1`
sees, and the outcome of `MigrateDB`. -/
structure DriverConfig where
  openErr : Option GoErr
  openLocked : Bool
  schema : SchemaState
  migrateErr : Option GoErr

/-- Outcome of `NewDB` (db/db.go): whether a usable driver was returned,
the locked flag, the error, and whether `MigrateDB` was reached. -/
structure NewDBResult where
  ok : Bool
  locked : Bool
  err : Option GoErr
  migrateCalled : Bool
deriving DecidableEq, Repr

/-- The dialects `newDB` (db/db.go) accepts. -/
def validDialects : List String := ["sqlite3", "mysql", "postgres", "redis"]

/-- The fatal compatibility error `NewDB` raises on a legacy store. -/
def schemaVersionIncompatibleMsg : String :=
  "Failed to NewDB. Since SchemaVersion is incompatible, delete Database and fetch again."

/-- `NewDB` (db/db.go): construct the driver for the dialect, open it, check
`IsGoCPEDictModelV1`, abort on a legacy store, and only then migrate. -/
def NewDB (dbType : String) (d : DriverConfig) : NewDBResult :=
  if !(validDialects.contains dbType) then
    { ok := false, locked := false,
      err := some (.base ("Invalid database dialect, " ++ dbType)), migrateCalled := false }
  else
    match d.openErr with
    | some e => { ok := false, locked := d.openLocked, err := some e, migrateCalled := false }
    | none =>
      match IsGoCPEDictModelV1 d.schema with
      | (_, some e) => { ok := false, locked := false, err := some e, migrateCalled := false }
      | (true, none) =>
        { ok := false, locked := false,
          err := some (.base schemaVersionIncompatibleMsg), migrateCalled := false }
      | (false, none) =>
        match d.migrateErr with
        | some e => { ok := false, locked := false, err := some e, migrateCalled := true }
        | none => { ok := true, locked := false, err := none, migrateCalled := true }

/-- C4: when the FetchMeta table is absent but at least one table exists,
`IsGoCPEDictModelV1` reports a legacy store and `NewDB` aborts with the
fatal compatibility error without ever calling `MigrateDB`; when the
FetchMeta table exists, `IsGoCPEDictModelV1` reports false and (open having
succeeded) `NewDB` proceeds to `MigrateDB`. -/
theorem newDB_legacy_abort (dbType : String) (d : DriverConfig)
    (hdialect : validDialects.contains dbType = true) (hopen : d.openErr = none) :
    (d.schema.hasFetchMetaTable = false → 0 < d.schema.tableCount →
      IsGoCPEDictModelV1 d.schema = (true, none)
      ∧ NewDB dbType d = ⟨false, false, some (.base schemaVersionIncompatibleMsg), false⟩)
    ∧ (d.schema.hasFetchMetaTable = true →
      IsGoCPEDictModelV1 d.schema = (false, none)
      ∧ (NewDB dbType d).migrateCalled = true) := by
  have hmem : dbType ∈ validDialects := by simpa using hdialect
  constructor
  · intro hmeta hcount
    have hv1 : IsGoCPEDictModelV1 d.schema = (true, none) := by
      simp [IsGoCPEDictModelV1, hmeta, hcount]
    refine ⟨hv1, ?_⟩
    simp [NewDB, hmem, hopen, hv1]
  · intro hmeta
    have hv1 : IsGoCPEDictModelV1 d.schema = (false, none) := by
      simp [IsGoCPEDictModelV1, hmeta]
    refine ⟨hv1, ?_⟩
    cases hmig : d.migrateErr <;> simp [NewDB, hmem, hopen, hv1, hmig]

/-- Witness for C4: a sqlite3 store holding one unrelated table and no
FetchMeta table is refused before migration; a store with the FetchMeta
table proceeds to migration. -/
theorem newDB_legacy_abort_witness :
    (IsGoCPEDictModelV1 ⟨false, 1, none⟩ = (true, none)
      ∧ NewDB "sqlite3" ⟨none, false, ⟨false, 1, none⟩, none⟩ =
          ⟨false, false, some (.base schemaVersionIncompatibleMsg), false⟩)
    ∧ (IsGoCPEDictModelV1 ⟨true, 1, none⟩ = (false, none)
      ∧ (NewDB "sqlite3" ⟨none, false, ⟨true, 1, none⟩, none⟩).migrateCalled = true) :=
  ⟨(newDB_legacy_abort "sqlite3" ⟨none, false, ⟨false, 1, none⟩, none⟩ (by decide) rfl).1
      rfl (by decide),
   (newDB_legacy_abort "sqlite3" ⟨none, false, ⟨true, 1, none⟩, none⟩ (by decide) rfl).2 rfl⟩

/-- The possible concrete types of the error `gorm.Open` returns, as
`OpenDB` (rdb.go) distinguishes them: a `sqlite3.Error` carrying a result
code, or an error of any other concrete type. -/
inductive OpenError where
  | sqliteError (code : Nat)
  | other (msg : String)
deriving DecidableEq, Repr

/-- `sqlite3.ErrBusy` (result code 5). -/
def sqlite3ErrBusy : Nat := 5

/-- `sqlite3.ErrLocked` (result code 6). -/
def sqlite3ErrLocked : Nat := 6

/-- The error-handling tail of `OpenDB` (rdb.go, the `if err != nil` block):
given the dialect name and the open error, produce `(locked, message)` —
or `none` for a runtime panic, which is what the unchecked type assertion
`err.(sqlite3.Error)` does when the error has any other concrete type. -/
def openDBHandleErr (name : String) (e : OpenError) : Option (Bool × String) :=
  let msg := "Failed to open DB."
  if name == "sqlite3" then
    match e with
    | .sqliteError code =>
      if code == sqlite3ErrLocked || code == sqlite3ErrBusy then some (true, msg)
      else some (false, msg)
    | .other _ => none
  else some (false, msg)

/-- C9: for the sqlite3 dialect the open error is unconditionally asserted
to be a `sqlite3.Error`: the handler panics exactly when the error has any
other concrete type, and for genuine `sqlite3.Error` values it is total,
classifying as locked exactly the locked/busy result codes. -/
theorem openDB_sqlite_assertion (e : OpenError) :
    (openDBHandleErr "sqlite3" e = none ↔ ∃ m, e = .other m)
    ∧ (∀ code, e = .sqliteError code →
        openDBHandleErr "sqlite3" e =
          some (code == sqlite3ErrLocked || code == sqlite3ErrBusy, "Failed to open DB.")) := by
  constructor
  · cases e with
    | sqliteError code =>
      simp only [openDBHandleErr]
      constructor
      · intro h
        by_cases hc : (code == sqlite3ErrLocked || code == sqlite3ErrBusy) = true <;>
          simp [hc] at h
      · rintro ⟨m, hm⟩
        cases hm
    | other m => simp [openDBHandleErr]
  · rintro code rfl
    simp only [openDBHandleErr]
    by_cases hc : (code == sqlite3ErrLocked || code == sqlite3ErrBusy) = true <;> simp [hc]

/-- Witness for C9: a wrapped filesystem error panics the handler; the busy
code is classified as locked. -/
theorem openDB_sqlite_assertion_witness :
    openDBHandleErr "sqlite3" (.other "out of memory") = none
    ∧ openDBHandleErr "sqlite3" (.sqliteError 5) = some (true, "Failed to open DB.") :=
  ⟨(openDB_sqlite_assertion (.other "out of memory")).1.2 ⟨"out of memory", rfl⟩,
   (openDB_sqlite_assertion (.sqliteError 5)).2 5 rfl⟩

/-- One statement of a replace transaction, as recorded in a trace:
`conn.Begin()`, a chunked `DELETE ... WHERE id IN (...)`, a chunked bulk
`INSERT`, `tx.Commit()` or `tx.Rollback()`. -/
inductive TxEvent where
  | beginTx
  | deleteStmt (ids : List Nat)
  | insertStmt (rows : List CategorizedCpe)
  | commitTx
  | rollbackTx
deriving DecidableEq, Repr

/-- Fault oracle for a replace transaction: whether the id-select statement
fails, and whether the k-th delete / k-th insert statement fails, and with
which backend error. -/
structure TxFaults where
  selectFault : Option GoErr
  deleteFault : Nat → Option GoErr
  insertFault : Nat → Option GoErr

/-- The fault-free oracle: every statement succeeds. -/
def noFaults : TxFaults := ⟨none, fun _ => none, fun _ => none⟩

/-- Go's `xs[c.From:c.To]` for the chunks produced by `chunkSlice`. -/
def sliceOf {α : Type} (xs : List α) (c : IndexChunk) : List α :=
  (xs.drop c.From).take (c.To - c.From)

/-- The ids `deleteAndInsertCpes` selects:
`tx.Model(...).Select("id").Where("fetch_type = ?", fetchType)`. -/
def oldIdsOf (db : List CategorizedCpe) (ft : String) : List Nat :=
  (db.filter fun r => r.fetchType == ft).map fun r => r.id

/-- The delete loop of `deleteAndInsertCpes`: for each chunk, either the
statement faults (the loop returns the raw error) or the rows whose id is in
the chunk of `oldIDs` are removed from the transaction state; the issued
statements are returned as events. `k` numbers the statements for the fault
oracle. -/
def runDeleteChunks (faults : TxFaults) (oldIDs : List Nat) :
    List IndexChunk → Nat → List CategorizedCpe →
      Option GoErr × List CategorizedCpe × List TxEvent
  | [], _, st => (none, st, [])
  | c :: rest, k, st =>
    match faults.deleteFault k with
    | some e => (some e, st, [])
    | none =>
      let ids := sliceOf oldIDs c
      let next := runDeleteChunks faults oldIDs rest (k + 1)
        (st.filter fun r => decide (r.id ∉ ids))
      (next.1, next.2.1, .deleteStmt ids :: next.2.2)

/-- The insert loop of `deleteAndInsertCpes`: for each chunk, either the
statement faults or the chunk of `cpes` is appended to the transaction
state. -/
def runInsertChunks (faults : TxFaults) (cpes : List CategorizedCpe) :
    List IndexChunk → Nat → List CategorizedCpe →
      Option GoErr × List CategorizedCpe × List TxEvent
  | [], _, st => (none, st, [])
  | c :: rest, k, st =>
    match faults.insertFault k with
    | some e => (some e, st, [])
    | none =>
      let rows := sliceOf cpes c
      let next := runInsertChunks faults cpes rest (k + 1) (st ++ rows)
      (next.1, next.2.1, .insertStmt rows :: next.2.2)

/-- Result of a replace call: the returned error, the table contents the
caller observes afterwards, and the transaction trace. -/
structure ReplaceResult where
  res : Option GoErr
  final : List CategorizedCpe
  trace : List TxEvent
deriving DecidableEq, Repr

/-- The deferred handler of `deleteAndInsertCpes`: if the named return `err`
is non-nil the transaction is rolled back (the caller still observes `db`),
otherwise it is committed (the caller observes the transaction state). -/
def txFinish (db : List CategorizedCpe) (res : Option GoErr)
    (st : List CategorizedCpe) (evs : List TxEvent) : ReplaceResult :=
  match res with
  | some e => ⟨some e, db, .beginTx :: (evs ++ [.rollbackTx])⟩
  | none => ⟨none, st, .beginTx :: (evs ++ [.commitTx])⟩

/-- The insert phase of `deleteAndInsertCpes` followed by the deferred
commit/rollback: chunks of 2,000 rows, an insert fault is wrapped
"Failed to insert. err". -/
def runReplaceInserts (faults : TxFaults) (db : List CategorizedCpe)
    (cpes : List CategorizedCpe) (st : List CategorizedCpe) (evs : List TxEvent) :
    ReplaceResult :=
  let r := runInsertChunks faults cpes (chunkSlice cpes.length 2000) 0 st
  txFinish db (r.1.map (GoErr.wrapped "Failed to insert. err")) r.2.1 (evs ++ r.2.2)

/-- `deleteAndInsertCpes` (rdb.go): one transaction; select the ids of the
incoming fetch type (a not-found error is ignored and, the row count being
zero, deletion is skipped; any other select error is wrapped
"Failed to select old defs" and aborts); delete those ids in chunks of
10,000 (a fault is wrapped "Failed to delete" and aborts); insert the batch
in chunks of 2,000 (a fault is wrapped "Failed to insert. err" and aborts);
the deferred handler rolls back on any error and commits otherwise. -/
def deleteAndInsertCpes (faults : TxFaults) (db : List CategorizedCpe)
    (fetchType : String) (cpes : List CategorizedCpe) : ReplaceResult :=
  match faults.selectFault with
  | some e =>
    if e.isRecordNotFound then
      runReplaceInserts faults db cpes db []
    else
      txFinish db (some (.wrapped "Failed to select old defs" e)) db []
  | none =>
    let oldIDs := oldIdsOf db fetchType
    if 0 < oldIDs.length then
      let rd := runDeleteChunks faults oldIDs (chunkSlice oldIDs.length 10000) 0 db
      match rd.1 with
      | some e => txFinish db (some (.wrapped "Failed to delete" e)) rd.2.1 rd.2.2
      | none => runReplaceInserts faults db cpes rd.2.1 rd.2.2
    else
      runReplaceInserts faults db cpes db []

/-- `InsertCpes` (rdb.go) delegates to `deleteAndInsertCpes` on the open
connection. -/
def InsertCpes (faults : TxFaults) (db : List CategorizedCpe)
    (fetchType : String) (cpes : List CategorizedCpe) : ReplaceResult :=
  deleteAndInsertCpes faults db fetchType cpes

theorem runDeleteChunks_err (faults : TxFaults) (oldIDs : List Nat) :
    ∀ (chunks : List IndexChunk) (k : Nat) (st : List CategorizedCpe) (e : GoErr),
      (runDeleteChunks faults oldIDs chunks k st).1 = some e →
      ∃ j, faults.deleteFault j = some e := by
  intro chunks
  induction chunks with
  | nil => intro k st e h; simp [runDeleteChunks] at h
  | cons c rest ih =>
    intro k st e h
    rw [runDeleteChunks] at h
    cases hf : faults.deleteFault k with
    | some e2 =>
      rw [hf] at h
      simp at h
      exact ⟨k, by rw [hf, h]⟩
    | none =>
      rw [hf] at h
      simp only at h
      exact ih (k + 1) _ e h

theorem runInsertChunks_err (faults : TxFaults) (cpes : List CategorizedCpe) :
    ∀ (chunks : List IndexChunk) (k : Nat) (st : List CategorizedCpe) (e : GoErr),
      (runInsertChunks faults cpes chunks k st).1 = some e →
      ∃ j, faults.insertFault j = some e := by
  intro chunks
  induction chunks with
  | nil => intro k st e h; simp [runInsertChunks] at h
  | cons c rest ih =>
    intro k st e h
    rw [runInsertChunks] at h
    cases hf : faults.insertFault k with
    | some e2 =>
      rw [hf] at h
      simp at h
      exact ⟨k, by rw [hf, h]⟩
    | none =>
      rw [hf] at h
      simp only at h
      exact ih (k + 1) _ e h

theorem getLast_cons_concat (x a : TxEvent) (l : List TxEvent) :
    (x :: (l ++ [a])).getLast? = some a := by
  rw [← List.cons_append]
  exact List.getLast?_concat _

theorem runReplaceInserts_spec (faults : TxFaults) (db cpes st : List CategorizedCpe)
    (evs : List TxEvent) :
    (∀ e, (runReplaceInserts faults db cpes st evs).res = some e →
      (runReplaceInserts faults db cpes st evs).final = db
      ∧ (runReplaceInserts faults db cpes st evs).trace.getLast? = some TxEvent.rollbackTx
      ∧ ∃ u, (∃ k, faults.insertFault k = some u)
          ∧ e = GoErr.wrapped "Failed to insert. err" u)
    ∧ ((runReplaceInserts faults db cpes st evs).res = none →
      (runReplaceInserts faults db cpes st evs).trace.getLast? = some TxEvent.commitTx) := by
  unfold runReplaceInserts
  dsimp only
  cases hr : (runInsertChunks faults cpes (chunkSlice cpes.length 2000) 0 st).1 with
  | some u =>
    constructor
    · intro e he
      have he' : GoErr.wrapped "Failed to insert. err" u = e := by
        simpa [txFinish] using he
      exact ⟨rfl, getLast_cons_concat _ _ _,
        u, runInsertChunks_err faults cpes _ 0 st u hr, he'.symm⟩
    · intro he
      simp [txFinish] at he
  | none =>
    constructor
    · intro e he
      simp [txFinish] at he
    · intro _
      exact getLast_cons_concat _ _ _

/-- C1: for every fault pattern, every store, fetch type and batch: if any
step of `deleteAndInsertCpes` fails — the id select, any delete chunk, or
any insert chunk — the transaction is rolled back, the caller still
observes the pre-replace table unchanged, and the returned error is the
underlying backend error wrapped with the failing phase; if no step fails
the transaction is committed. -/
theorem deleteAndInsertCpes_atomic (faults : TxFaults) (db : List CategorizedCpe)
    (ft : String) (cpes : List CategorizedCpe) :
    (∀ e, (deleteAndInsertCpes faults db ft cpes).res = some e →
      (deleteAndInsertCpes faults db ft cpes).final = db
      ∧ (deleteAndInsertCpes faults db ft cpes).trace.getLast? = some TxEvent.rollbackTx
      ∧ ((∃ u, faults.selectFault = some u ∧ u.isRecordNotFound = false
            ∧ e = GoErr.wrapped "Failed to select old defs" u)
        ∨ (∃ u, (∃ k, faults.deleteFault k = some u)
            ∧ e = GoErr.wrapped "Failed to delete" u)
        ∨ (∃ u, (∃ k, faults.insertFault k = some u)
            ∧ e = GoErr.wrapped "Failed to insert. err" u)))
    ∧ ((deleteAndInsertCpes faults db ft cpes).res = none →
      (deleteAndInsertCpes faults db ft cpes).trace.getLast? = some TxEvent.commitTx) := by
  unfold deleteAndInsertCpes
  cases hsel : faults.selectFault with
  | some e0 =>
    cases hrnf : e0.isRecordNotFound with
    | true =>
      simp only [hrnf, if_true]
      have h := runReplaceInserts_spec faults db cpes db []
      exact ⟨fun e he => ⟨(h.1 e he).1, (h.1 e he).2.1, Or.inr (Or.inr (h.1 e he).2.2)⟩, h.2⟩
    | false =>
      simp only [hrnf, Bool.false_eq_true, if_false]
      constructor
      · intro e he
        have he' : GoErr.wrapped "Failed to select old defs" e0 = e := by
          simpa [txFinish] using he
        exact ⟨rfl, getLast_cons_concat _ _ _, Or.inl ⟨e0, rfl, hrnf, he'.symm⟩⟩
      · intro he
        simp [txFinish] at he
  | none =>
    dsimp only
    by_cases hpos : 0 < (oldIdsOf db ft).length
    · simp only [hpos, if_true]
      cases hrd : (runDeleteChunks faults (oldIdsOf db ft)
          (chunkSlice (oldIdsOf db ft).length 10000) 0 db).1 with
      | some u =>
        constructor
        · intro e he
          have he' : GoErr.wrapped "Failed to delete" u = e := by
            simpa [txFinish] using he
          exact ⟨rfl, getLast_cons_concat _ _ _,
            Or.inr (Or.inl ⟨u, runDeleteChunks_err faults _ _ 0 db u hrd, he'.symm⟩)⟩
        · intro he
          simp [txFinish] at he
      | none =>
        have h := runReplaceInserts_spec faults db cpes
          (runDeleteChunks faults (oldIdsOf db ft)
            (chunkSlice (oldIdsOf db ft).length 10000) 0 db).2.1
          (runDeleteChunks faults (oldIdsOf db ft)
            (chunkSlice (oldIdsOf db ft).length 10000) 0 db).2.2
        exact ⟨fun e he => ⟨(h.1 e he).1, (h.1 e he).2.1, Or.inr (Or.inr (h.1 e he).2.2)⟩, h.2⟩
    · simp only [hpos, if_false]
      have h := runReplaceInserts_spec faults db cpes db []
      exact ⟨fun e he => ⟨(h.1 e he).1, (h.1 e he).2.1, Or.inr (Or.inr (h.1 e he).2.2)⟩, h.2⟩

theorem runInsertChunks_noFault (faults : TxFaults) (his : ∀ k, faults.insertFault k = none)
    (cpes : List CategorizedCpe) :
    ∀ (chunks : List IndexChunk) (k : Nat) (st : List CategorizedCpe),
      runInsertChunks faults cpes chunks k st =
        (none, st ++ chunks.flatMap (sliceOf cpes),
         chunks.map fun c => TxEvent.insertStmt (sliceOf cpes c)) := by
  intro chunks
  induction chunks with
  | nil => intro k st; simp [runInsertChunks]
  | cons c rest ih =>
    intro k st
    rw [runInsertChunks, his k]
    simp [ih (k + 1), List.append_assoc]

theorem runDeleteChunks_noFault (faults : TxFaults) (hds : ∀ k, faults.deleteFault k = none)
    (oldIDs : List Nat) :
    ∀ (chunks : List IndexChunk) (k : Nat) (st : List CategorizedCpe),
      runDeleteChunks faults oldIDs chunks k st =
        (none, st.filter fun r => decide (r.id ∉ chunks.flatMap (sliceOf oldIDs)),
         chunks.map fun c => TxEvent.deleteStmt (sliceOf oldIDs c)) := by
  intro chunks
  induction chunks with
  | nil => intro k st; simp [runDeleteChunks]
  | cons c rest ih =>
    intro k st
    rw [runDeleteChunks, hds k]
    simp only [ih (k + 1), List.flatMap_cons, List.map_cons]
    refine Prod.ext rfl (Prod.ext ?_ rfl)
    show (List.filter _ (List.filter _ st)) = _
    rw [List.filter_filter]
    apply List.filter_congr
    intro r _
    by_cases h1 : r.id ∈ sliceOf oldIDs c <;>
      by_cases h2 : r.id ∈ rest.flatMap (sliceOf oldIDs) <;>
        simp [h1, h2]

theorem chunkSlice_flatMap_sliceOf {α : Type} (xs : List α) (S : Nat) (hS : 0 < S) :
    (chunkSlice xs.length S).flatMap (sliceOf xs) = xs :=
  chunkSlice_bind_slice xs S hS

theorem deleteAndInsertCpes_noFaults_run (db : List CategorizedCpe) (ft : String)
    (cpes : List CategorizedCpe) :
    deleteAndInsertCpes noFaults db ft cpes =
      ⟨none,
       (db.filter fun r => decide (r.id ∉ oldIdsOf db ft)) ++ cpes,
       TxEvent.beginTx ::
         (((chunkSlice (oldIdsOf db ft).length 10000).map
             fun c => TxEvent.deleteStmt (sliceOf (oldIdsOf db ft) c))
          ++ ((chunkSlice cpes.length 2000).map
             fun c => TxEvent.insertStmt (sliceOf cpes c))
          ++ [TxEvent.commitTx])⟩ := by
  have hins := runInsertChunks_noFault noFaults (fun _ => rfl) cpes
    (chunkSlice cpes.length 2000) 0
  have hflati : (chunkSlice cpes.length 2000).flatMap (sliceOf cpes) = cpes :=
    chunkSlice_flatMap_sliceOf cpes 2000 (by omega)
  unfold deleteAndInsertCpes
  rw [show noFaults.selectFault = none from rfl]
  dsimp only
  by_cases hpos : 0 < (oldIdsOf db ft).length
  · simp only [hpos, if_true]
    rw [runDeleteChunks_noFault noFaults (fun _ => rfl) (oldIdsOf db ft)]
    dsimp only
    unfold runReplaceInserts
    dsimp only
    rw [hins]
    dsimp only
    simp only [Option.map_none', txFinish,
      chunkSlice_flatMap_sliceOf (oldIdsOf db ft) 10000 (by omega), hflati]
  · simp only [hpos, if_false]
    have hnil : oldIdsOf db ft = [] := by
      rcases List.eq_nil_or_concat (oldIdsOf db ft) with h | ⟨l, a, h⟩
      · exact h
      · exfalso; apply hpos; simp [h]
    unfold runReplaceInserts
    dsimp only
    rw [hins]
    dsimp only
    simp only [Option.map_none', txFinish, hflati]
    simp [hnil, chunkSlice, chunkSliceAux]

theorem count_map_eq_zero {β : Type} (f : β → TxEvent) (l : List β) (a : TxEvent)
    (h : ∀ b, f b ≠ a) : (l.map f).count a = 0 := by
  apply List.count_eq_zero.2
  intro hmem
  rcases List.mem_map.1 hmem with ⟨b, _, hb⟩
  exact h b hb

/-- C6: in a fault-free replace, the statements issued are exactly the
deletes of the old ids chunked by `chunkSlice(·, 10000)` followed by the
inserts of the batch chunked by `chunkSlice(·, 2000)`: every delete
statement carries at most 10,000 ids and every chunk is full (10,000 /
2,000) except possibly the last (clipped) one; deletion is skipped entirely
when no prior entries of the fetch type exist; and the whole trace is one
transaction — exactly one begin, exactly one commit, no rollback. -/
theorem deleteAndInsertCpes_chunking (db : List CategorizedCpe) (ft : String)
    (cpes : List CategorizedCpe) :
    (deleteAndInsertCpes noFaults db ft cpes).trace =
      TxEvent.beginTx ::
        (((chunkSlice (oldIdsOf db ft).length 10000).map
            fun c => TxEvent.deleteStmt (sliceOf (oldIdsOf db ft) c))
         ++ ((chunkSlice cpes.length 2000).map
            fun c => TxEvent.insertStmt (sliceOf cpes c))
         ++ [TxEvent.commitTx])
    ∧ (∀ ids, TxEvent.deleteStmt ids ∈ (deleteAndInsertCpes noFaults db ft cpes).trace →
        ids.length ≤ 10000)
    ∧ (∀ rows, TxEvent.insertStmt rows ∈ (deleteAndInsertCpes noFaults db ft cpes).trace →
        rows.length ≤ 2000)
    ∧ (∀ c ∈ chunkSlice (oldIdsOf db ft).length 10000,
        c.To - c.From = 10000 ∨ c.To = (oldIdsOf db ft).length)
    ∧ (∀ c ∈ chunkSlice cpes.length 2000, c.To - c.From = 2000 ∨ c.To = cpes.length)
    ∧ (oldIdsOf db ft = [] →
        ∀ ids, TxEvent.deleteStmt ids ∉ (deleteAndInsertCpes noFaults db ft cpes).trace)
    ∧ (deleteAndInsertCpes noFaults db ft cpes).trace.count TxEvent.beginTx = 1
    ∧ (deleteAndInsertCpes noFaults db ft cpes).trace.count TxEvent.commitTx = 1
    ∧ (deleteAndInsertCpes noFaults db ft cpes).trace.count TxEvent.rollbackTx = 0 := by
  rw [deleteAndInsertCpes_noFaults_run db ft cpes]
  dsimp only
  have hd0 : ∀ a : TxEvent, (∀ ids, a ≠ TxEvent.deleteStmt ids) →
      ((chunkSlice (oldIdsOf db ft).length 10000).map
        fun c => TxEvent.deleteStmt (sliceOf (oldIdsOf db ft) c)).count a = 0 := by
    intro a ha
    apply count_map_eq_zero
    intro b hb
    exact ha _ hb.symm
  have hi0 : ∀ a : TxEvent, (∀ rows, a ≠ TxEvent.insertStmt rows) →
      ((chunkSlice cpes.length 2000).map
        fun c => TxEvent.insertStmt (sliceOf cpes c)).count a = 0 := by
    intro a ha
    apply count_map_eq_zero
    intro b hb
    exact ha _ hb.symm
  refine ⟨rfl, ?_, ?_, ?_, ?_, ?_, ?_, ?_, ?_⟩
  · intro ids hmem
    simp only [List.mem_cons, List.mem_append, List.mem_map] at hmem
    rcases hmem with h | h
    · exact absurd h (by simp)
    rcases h with (⟨c, hc, h⟩ | ⟨c, hc, h⟩) | h
    · have hsz := (chunkSliceAux_mem (oldIdsOf db ft).length 10000 (by omega)
        ((oldIdsOf db ft).length + 1) 0 c hc).2.2.1
      have : ids = sliceOf (oldIdsOf db ft) c := by
        injection h with h2
        exact h2.symm
      subst this
      simp only [sliceOf, List.length_take]
      omega
    · exact absurd h (by simp)
    · exact absurd h (by simp)
  · intro rows hmem
    simp only [List.mem_cons, List.mem_append, List.mem_map] at hmem
    rcases hmem with h | h
    · exact absurd h (by simp)
    rcases h with (⟨c, hc, h⟩ | ⟨c, hc, h⟩) | h
    · exact absurd h (by simp)
    · have hsz := (chunkSliceAux_mem cpes.length 2000 (by omega)
        (cpes.length + 1) 0 c hc).2.2.1
      have : rows = sliceOf cpes c := by
        injection h with h2
        exact h2.symm
      subst this
      simp only [sliceOf, List.length_take]
      omega
    · exact absurd h (by simp)
  · intro c hc
    exact (chunkSliceAux_mem (oldIdsOf db ft).length 10000 (by omega)
      ((oldIdsOf db ft).length + 1) 0 c hc).2.2.2
  · intro c hc
    exact (chunkSliceAux_mem cpes.length 2000 (by omega)
      (cpes.length + 1) 0 c hc).2.2.2
  · intro hnil ids
    rw [hnil]
    simp [chunkSlice, chunkSliceAux]
  · rw [List.count_cons]
    rw [List.count_append, List.count_append]
    rw [hd0 TxEvent.beginTx (by intro ids h; cases h),
      hi0 TxEvent.beginTx (by intro rows h; cases h)]
    simp
  · rw [List.count_cons]
    rw [List.count_append, List.count_append]
    rw [hd0 TxEvent.commitTx (by intro ids h; cases h),
      hi0 TxEvent.commitTx (by intro rows h; cases h)]
    simp
  · rw [List.count_cons]
    rw [List.count_append, List.count_append]
    rw [hd0 TxEvent.rollbackTx (by intro ids h; cases h),
      hi0 TxEvent.rollbackTx (by intro rows h; cases h)]
    simp

/-- C10: calling `InsertCpes` with an empty batch succeeds, issues no insert
statement, still begins a transaction, deletes every existing entry of the
fetch type, and commits — leaving that generation empty. -/
theorem insertCpes_empty_batch (db : List CategorizedCpe) (ft : String) :
    (InsertCpes noFaults db ft []).res = none
    ∧ (InsertCpes noFaults db ft []).final =
        db.filter (fun r => decide (r.id ∉ oldIdsOf db ft))
    ∧ ((InsertCpes noFaults db ft []).final.filter fun r => r.fetchType == ft) = []
    ∧ (∀ rows, TxEvent.insertStmt rows ∉ (InsertCpes noFaults db ft []).trace)
    ∧ (InsertCpes noFaults db ft []).trace.getLast? = some TxEvent.commitTx := by
  unfold InsertCpes
  rw [deleteAndInsertCpes_noFaults_run db ft []]
  dsimp only
  refine ⟨rfl, List.append_nil _, ?_, ?_, ?_⟩
  · rw [List.append_nil, List.filter_filter]
    apply List.filter_eq_nil_iff.2
    intro r hr
    by_cases hft : (r.fetchType == ft) = true
    · have hid : r.id ∈ oldIdsOf db ft := by
        unfold oldIdsOf
        exact List.mem_map.2 ⟨r, List.mem_filter.2 ⟨hr, hft⟩, rfl⟩
      simp [hft, hid]
    · simp [hft]
  · intro rows
    simp [chunkSlice, chunkSliceAux, List.mem_map]
  · exact getLast_cons_concat _ _ _

/-- A fault oracle that fails the first insert statement (for the C1
witness). -/
def insertFaultAt0 : TxFaults :=
  ⟨none, fun _ => none, fun k => if k == 0 then some (.base "constraint failed") else none⟩

/-- Witness for C1: with one stored entry and a batch of one, a failing
first insert chunk rolls the replace back and surfaces the wrapped
insert-phase error. -/
theorem deleteAndInsertCpes_atomic_witness :
    (deleteAndInsertCpes insertFaultAt0 [⟨1, "v", "p", "cpe:o", false, "nvd"⟩] "nvd"
        [⟨2, "v", "p", "cpe:n", false, "nvd"⟩]).final = [⟨1, "v", "p", "cpe:o", false, "nvd"⟩]
    ∧ (deleteAndInsertCpes insertFaultAt0 [⟨1, "v", "p", "cpe:o", false, "nvd"⟩] "nvd"
        [⟨2, "v", "p", "cpe:n", false, "nvd"⟩]).trace.getLast? = some TxEvent.rollbackTx
    ∧ ((∃ u, insertFaultAt0.selectFault = some u ∧ u.isRecordNotFound = false
          ∧ GoErr.wrapped "Failed to insert. err" (.base "constraint failed")
              = GoErr.wrapped "Failed to select old defs" u)
      ∨ (∃ u, (∃ k, insertFaultAt0.deleteFault k = some u)
          ∧ GoErr.wrapped "Failed to insert. err" (.base "constraint failed")
              = GoErr.wrapped "Failed to delete" u)
      ∨ (∃ u, (∃ k, insertFaultAt0.insertFault k = some u)
          ∧ GoErr.wrapped "Failed to insert. err" (.base "constraint failed")
              = GoErr.wrapped "Failed to insert. err" u)) :=
  (deleteAndInsertCpes_atomic insertFaultAt0 [⟨1, "v", "p", "cpe:o", false, "nvd"⟩] "nvd"
      [⟨2, "v", "p", "cpe:n", false, "nvd"⟩]).1
    (GoErr.wrapped "Failed to insert. err" (.base "constraint failed")) (by decide)

/-- Witness for C10 at a one-entry store. -/
theorem insertCpes_empty_batch_witness :
    (InsertCpes noFaults [⟨1, "v", "p", "cpe:o", false, "nvd"⟩] "nvd" []).res = none
    ∧ (InsertCpes noFaults [⟨1, "v", "p", "cpe:o", false, "nvd"⟩] "nvd" []).final =
        List.filter (fun r => decide (r.id ∉ oldIdsOf [⟨1, "v", "p", "cpe:o", false, "nvd"⟩] "nvd"))
          [⟨1, "v", "p", "cpe:o", false, "nvd"⟩]
    ∧ ((InsertCpes noFaults [⟨1, "v", "p", "cpe:o", false, "nvd"⟩] "nvd" []).final.filter
        fun r => r.fetchType == "nvd") = []
    ∧ (∀ rows, TxEvent.insertStmt rows ∉
        (InsertCpes noFaults [⟨1, "v", "p", "cpe:o", false, "nvd"⟩] "nvd" []).trace)
    ∧ (InsertCpes noFaults [⟨1, "v", "p", "cpe:o", false, "nvd"⟩] "nvd" []).trace.getLast? =
        some TxEvent.commitTx :=
  insertCpes_empty_batch [⟨1, "v", "p", "cpe:o", false, "nvd"⟩] "nvd"

/-- Witness for C6 at a one-entry store and one-entry batch. -/
theorem deleteAndInsertCpes_chunking_witness :
    (deleteAndInsertCpes noFaults [⟨1, "v", "p", "cpe:o", false, "nvd"⟩] "nvd"
        [⟨2, "v", "p", "cpe:n", false, "nvd"⟩]).trace =
      TxEvent.beginTx ::
        (((chunkSlice (oldIdsOf [⟨1, "v", "p", "cpe:o", false, "nvd"⟩] "nvd").length 10000).map
            fun c => TxEvent.deleteStmt (sliceOf (oldIdsOf [⟨1, "v", "p", "cpe:o", false, "nvd"⟩] "nvd") c))
         ++ ((chunkSlice ([⟨2, "v", "p", "cpe:n", false, "nvd"⟩] : List CategorizedCpe).length 2000).map
            fun c => TxEvent.insertStmt (sliceOf [⟨2, "v", "p", "cpe:n", false, "nvd"⟩] c))
         ++ [TxEvent.commitTx])
    ∧ (∀ ids, TxEvent.deleteStmt ids ∈ (deleteAndInsertCpes noFaults
        [⟨1, "v", "p", "cpe:o", false, "nvd"⟩] "nvd"
        [⟨2, "v", "p", "cpe:n", false, "nvd"⟩]).trace → ids.length ≤ 10000)
    ∧ (∀ rows, TxEvent.insertStmt rows ∈ (deleteAndInsertCpes noFaults
        [⟨1, "v", "p", "cpe:o", false, "nvd"⟩] "nvd"
        [⟨2, "v", "p", "cpe:n", false, "nvd"⟩]).trace → rows.length ≤ 2000)
    ∧ (∀ c ∈ chunkSlice (oldIdsOf [⟨1, "v", "p", "cpe:o", false, "nvd"⟩] "nvd").length 10000,
        c.To - c.From = 10000 ∨ c.To = (oldIdsOf [⟨1, "v", "p", "cpe:o", false, "nvd"⟩] "nvd").length)
    ∧ (∀ c ∈ chunkSlice ([⟨2, "v", "p", "cpe:n", false, "nvd"⟩] : List CategorizedCpe).length 2000,
        c.To - c.From = 2000 ∨ c.To = ([⟨2, "v", "p", "cpe:n", false, "nvd"⟩] : List CategorizedCpe).length)
    ∧ (oldIdsOf [⟨1, "v", "p", "cpe:o", false, "nvd"⟩] "nvd" = [] →
        ∀ ids, TxEvent.deleteStmt ids ∉ (deleteAndInsertCpes noFaults
          [⟨1, "v", "p", "cpe:o", false, "nvd"⟩] "nvd"
          [⟨2, "v", "p", "cpe:n", false, "nvd"⟩]).trace)
    ∧ (deleteAndInsertCpes noFaults [⟨1, "v", "p", "cpe:o", false, "nvd"⟩] "nvd"
        [⟨2, "v", "p", "cpe:n", false, "nvd"⟩]).trace.count TxEvent.beginTx = 1
    ∧ (deleteAndInsertCpes noFaults [⟨1, "v", "p", "cpe:o", false, "nvd"⟩] "nvd"
        [⟨2, "v", "p", "cpe:n", false, "nvd"⟩]).trace.count TxEvent.commitTx = 1
    ∧ (deleteAndInsertCpes noFaults [⟨1, "v", "p", "cpe:o", false, "nvd"⟩] "nvd"
        [⟨2, "v", "p", "cpe:n", false, "nvd"⟩]).trace.count TxEvent.rollbackTx = 0 :=
  deleteAndInsertCpes_chunking [⟨1, "v", "p", "cpe:o", false, "nvd"⟩] "nvd"
    [⟨2, "v", "p", "cpe:n", false, "nvd"⟩]

/-- Witness for C7: the spec's lookup-partition example, one active and one
deprecated entry under the same vendor and product. -/
theorem getCpesByVendorProduct_partition_witness :
    ∃ act dep, GetCpesByVendorProduct
        [⟨1, "v", "p", "cpe:a", false, "nvd"⟩, ⟨2, "v", "p", "cpe:b", true, "nvd"⟩]
        "v" "p" none = .ok (act, dep)
    ∧ (∀ u, u ∈ act ↔ ∃ r ∈ ([⟨1, "v", "p", "cpe:a", false, "nvd"⟩,
          ⟨2, "v", "p", "cpe:b", true, "nvd"⟩] : List CategorizedCpe),
        likeMatch "v" r.vendor = true ∧ likeMatch "p" r.product = true ∧
          r.deprecated = false ∧ r.cpeURI = u)
    ∧ (∀ u, u ∈ dep ↔ ∃ r ∈ ([⟨1, "v", "p", "cpe:a", false, "nvd"⟩,
          ⟨2, "v", "p", "cpe:b", true, "nvd"⟩] : List CategorizedCpe),
        likeMatch "v" r.vendor = true ∧ likeMatch "p" r.product = true ∧
          r.deprecated = true ∧ r.cpeURI = u)
    ∧ act.Nodup ∧ dep.Nodup :=
  getCpesByVendorProduct_partition
    [⟨1, "v", "p", "cpe:a", false, "nvd"⟩, ⟨2, "v", "p", "cpe:b", true, "nvd"⟩] "v" "p"
